import Mathlib

/-!
Verification of the Signature & Position Ledger of the psar-backtesting
repository (src/signatures.py, with the ticker-selection helper of
src/file_parser.py and the store-level close flow of src/bt.py).

The Python code is shallowly embedded:
* Python `dict` (insertion-ordered, unique keys) becomes an association
  list `List (String × α)` with lookup `alookup`, assignment `ainsert`
  (replace in place when the key exists, append otherwise) and deletion
  `aerase`.
* Python `float` prices become `ℚ`.
* `datetime.now()` and the market-status probe become explicit inputs
  (`CreateEnv`); the global `PriceFetcher().get_entry_prices` collaborator
  becomes the function field `get_entry_prices` of that environment.
* `hashlib.sha256(...).hexdigest()` is an external library function, not
  repository code; it is abstracted as a parameter `H : String → String`.
  Claims that need collision-freeness take injectivity of `H` as a
  hypothesis, which is the spec's own "collision-resistant digest"
  requirement.
* File-system side effects (the raw-content artifact written by
  `create_signature`, the write performed by `_save`) are reified as data:
  `CreateEffects` records the price fetch and the artifact write of one
  `create_signature` call, and `save_ops` lists the file operations that
  `_save` performs.
-/

namespace PSAR

/-- Lookup in an association list: models Python `d.get(k)` / `k in d`. -/
def alookup {α : Type} (l : List (String × α)) (k : String) : Option α :=
  (l.find? (fun p => p.1 == k)).map (fun p => p.2)

/-- Assignment `d[k] = v` on a Python dict: if the key exists its value is
replaced in place (insertion order kept), otherwise the pair is appended. -/
def ainsert {α : Type} (l : List (String × α)) (k : String) (v : α) :
    List (String × α) :=
  if (l.find? (fun p => p.1 == k)).isSome then
    l.map (fun p => if p.1 == k then (k, v) else p)
  else
    l ++ [(k, v)]

/-- Deletion `del d[k]` (a no-op when the key is absent, matching the
guarded deletes in the source). -/
def aerase {α : Type} (l : List (String × α)) (k : String) :
    List (String × α) :=
  l.filter (fun p => !(p.1 == k))

/-- Python string slice `s[a:b]`. -/
def sliceStr (s : String) (a b : Nat) : String :=
  String.mk ((s.data.drop a).take (b - a))

/-- Python `s.startswith(pre)`: `pre` is a character-level prefix of
`s`. -/
def strStartsWith (s pre : String) : Bool :=
  pre.data.isPrefixOf s.data

/-- `Position` dataclass of src/signatures.py. -/
structure Position where
  ticker : String
  category : String
  entry_price : ℚ
  entry_date : String
  entry_type : String
  status : String := ("open")
  exit_price : Option ℚ := none
  exit_date : Option String := none
  exit_reason : Option String := none
  pnl_pct : Option ℚ := none
  pnl_amt : Option ℚ := none
deriving DecidableEq, Repr

/-- `Position.close` of src/signatures.py.  The exit date
(`datetime.now().strftime(...)` in the source) is passed in as `today`.
Note the source sets `pnl_pct` to `0` — not to `None` — when
`entry_price ≤ 0`, and always sets `pnl_amt = price - entry_price`. -/
def Position.close (p : Position) (price : ℚ) (reason : String)
    (today : String) : Position :=
  { p with
    status := ("closed")
    exit_price := some price
    exit_date := some today
    exit_reason := some reason
    pnl_amt := some (price - p.entry_price)
    pnl_pct := some (if p.entry_price > 0 then
        (price - p.entry_price) / p.entry_price * 100 else 0) }

/-- `Signature` dataclass of src/signatures.py. -/
structure Signature where
  signature_id : String
  file_hash : String
  created_at : String
  mode : String
  market_status : String
  source_file : String
  positions : List (String × Position) := []
  output_file : String := ("")
deriving DecidableEq, Repr

/-- Result shape of `Signature.get_summary`. -/
structure Summary where
  total_positions : Nat
  open_positions : Nat
  closed_positions : Nat
  realized_pnl_pct : ℚ
  win_count : Nat
  loss_count : Nat
  win_rate : ℚ
deriving DecidableEq, Repr

/-- The open positions of a signature (`p.status == "open"`). -/
def Signature.openPositions (s : Signature) : List Position :=
  (s.positions.map (fun e => e.2)).filter (fun p => p.status == "open")

/-- The closed positions of a signature (`p.status == "closed"`). -/
def Signature.closedPositions (s : Signature) : List Position :=
  (s.positions.map (fun e => e.2)).filter (fun p => p.status == "closed")

/-- `Signature.get_summary` of src/signatures.py.  Python's
`p.pnl_pct or 0` yields `0` both when `pnl_pct` is `None` and when it is
`0.0`, so it is modelled by `Option.getD 0`. -/
def Signature.get_summary (s : Signature) : Summary :=
  let closedPos := s.closedPositions
  let winners := closedPos.filter (fun p => decide (p.pnl_pct.getD 0 > 0))
  let losers := closedPos.filter (fun p => decide (p.pnl_pct.getD 0 ≤ 0))
  { total_positions := s.positions.length
    open_positions := s.openPositions.length
    closed_positions := closedPos.length
    realized_pnl_pct := (closedPos.map (fun p => p.pnl_pct.getD 0)).sum
    win_count := winners.length
    loss_count := losers.length
    win_rate := if closedPos.length ≠ 0 then
        (winners.length : ℚ) / (closedPos.length : ℚ) * 100 else 0 }

/-- `Signature.get_open_tickers` of src/signatures.py. -/
def Signature.get_open_tickers (s : Signature) : List String :=
  (s.positions.filter (fun e => e.2.status == "open")).map (fun e => e.1)

/-- `Signature.close_position` of src/signatures.py.  The source mutates
the signature in place and returns a `bool`; the embedding returns the
updated signature together with that flag. -/
def Signature.close_position (s : Signature) (ticker : String) (price : ℚ)
    (reason today : String) : Signature × Bool :=
  match alookup s.positions ticker with
  | some p =>
      if p.status == "open" then
        ({ s with positions :=
            ainsert s.positions ticker (p.close price reason today) }, true)
      else (s, false)
  | none => (s, false)

/-- In-memory state of `SignatureManager`: the primary store
`signatures : signature_id → Signature` and the derived fingerprint index
`hash_index : file_hash → signature_id`. -/
structure SignatureManager where
  signatures : List (String × Signature) := []
  hash_index : List (String × String) := []
deriving DecidableEq, Repr

/-- `SignatureManager.compute_file_hash`: the fingerprint is the digest of
`f"{content}:{mode}"`, prefixed with `"sha256:"`.  `H` abstracts
`hashlib.sha256(...).hexdigest()`. -/
def compute_file_hash (H : String → String) (content : String)
    (mode : String) : String :=
  "sha256:" ++ H (content ++ ":" ++ mode)

/-- `SignatureManager.get_by_hash` of src/signatures.py. -/
def SignatureManager.get_by_hash (m : SignatureManager)
    (file_hash : String) : Option Signature :=
  match alookup m.hash_index file_hash with
  | some sig_id => alookup m.signatures sig_id
  | none => none

/-- `SignatureManager.get_by_id` of src/signatures.py.  The second
component of the result records the candidate identities printed in the
ambiguous-prefix branch (`matches[:5]` in the source); it is empty in
every other branch. -/
def SignatureManager.get_by_id (m : SignatureManager)
    (signature_id : String) : Option Signature × List String :=
  match alookup m.signatures signature_id with
  | some sig => (some sig, [])
  | none =>
      let ms := (m.signatures.map (fun e => e.1)).filter
        (fun s => strStartsWith s signature_id)
      match ms with
      | [single] => (alookup m.signatures single, [])
      | [] => (none, [])
      | more => (none, more.take 5)

/-- Entry-price record, the per-ticker value returned by
`PriceFetcher.get_entry_prices` (src/prices.py): `{price, price_type,
date, time}` — the `time` field is unused by the ledger and omitted. -/
structure PriceData where
  price : ℚ
  date : String
  price_type : String
deriving DecidableEq, Repr

/-- External inputs of one `create_signature` call: the digest function,
the `datetime.now()` renderings used by the source, the
`get_market_status()['description']` text, and the entry-price
collaborator. -/
structure CreateEnv where
  H : String → String
  now_ts : String
  now_iso : String
  now_day : String
  market_description : String
  get_entry_prices : List String → List (String × PriceData)

/-- Side effects of one `create_signature` call: which tickers were sent
to the price fetcher (`none` when no fetch was issued at all) and which
raw-content artifact file was written (`none` when none was). -/
structure CreateEffects where
  fetched : Option (List String) := none
  artifact : Option (String × String) := none
deriving DecidableEq, Repr

/-- Ticker-selection block of `SignatureManager.create_signature`
(src/signatures.py lines 254–271): builds `buy_tickers` and
`ticker_categories` from `parsed_stocks` according to `mode`.  Strong
buys are taken for modes `strong`/`all`; early buys for modes
`early`/`all`, skipping tickers already categorized; dividends for mode
`dividend`.  The plain `buys` list of `parsed_stocks` is never consulted
here. -/
def selectTickers (mode : String)
    (parsed_stocks : List (String × List String)) :
    List String × List (String × String) :=
  let acc0 : List String × List (String × String) := ([], [])
  let acc1 :=
    if mode == "strong" || mode == "all" then
      ((alookup parsed_stocks ("strong_buys")).getD []).foldl
        (fun acc t => (acc.1 ++ [t], ainsert acc.2 t ("strong_buy"))) acc0
    else acc0
  let acc2 :=
    if mode == "early" || mode == "all" then
      ((alookup parsed_stocks ("early_buys")).getD []).foldl
        (fun acc t =>
          if (alookup acc.2 t).isSome then acc
          else (acc.1 ++ [t], ainsert acc.2 t ("early_buy"))) acc1
    else acc1
  if mode == "dividend" then
    ((alookup parsed_stocks ("dividends")).getD []).foldl
      (fun acc t => (acc.1 ++ [t], ainsert acc.2 t ("dividend"))) acc2
  else acc2

/-- `SignatureManager.create_signature` of src/signatures.py.  Returns the
new manager state, the signature, the `is_new` flag, and the reified side
effects.  On a fingerprint hit it returns the stored signature, `false`,
and performs no fetch, no artifact write and no state change. -/
def SignatureManager.create_signature (m : SignatureManager)
    (env : CreateEnv) (file_content source_file mode : String)
    (parsed_stocks : List (String × List String)) :
    SignatureManager × Signature × Bool × CreateEffects :=
  let file_hash := compute_file_hash env.H file_content mode
  match m.get_by_hash file_hash with
  | some existing => (m, existing, false, {})
  | none =>
      let signature_id := env.now_ts ++ "_" ++ sliceStr file_hash 7 15
      let sel := selectTickers mode parsed_stocks
      let buy_tickers := sel.1
      let ticker_categories := sel.2
      let price_data := env.get_entry_prices buy_tickers
      let positions := buy_tickers.foldl
        (fun acc ticker =>
          match alookup price_data ticker with
          | some pd =>
              ainsert acc ticker
                { ticker := ticker
                  category := (alookup ticker_categories ticker).getD ("")
                  entry_price := pd.price
                  entry_date := pd.date
                  entry_type := pd.price_type }
          | none => acc) []
      let output_file := env.now_day ++ "/" ++ signature_id ++ ".txt"
      let sig : Signature :=
        { signature_id := signature_id
          file_hash := file_hash
          created_at := env.now_iso
          mode := mode
          market_status := env.market_description
          source_file := source_file
          output_file := output_file
          positions := positions }
      ({ signatures := ainsert m.signatures signature_id sig
         hash_index := ainsert m.hash_index file_hash signature_id },
       sig, true,
       { fetched := some buy_tickers
         artifact := some (output_file, file_content) })

/-- `SignatureManager.update_signature` of src/signatures.py (sans the
`_save()` call, whose file operations are modelled by `save_ops`). -/
def SignatureManager.update_signature (m : SignatureManager)
    (sig : Signature) : SignatureManager :=
  { m with signatures := ainsert m.signatures sig.signature_id sig }

/-- `SignatureManager.delete_signature` of src/signatures.py.  The third
component is the artifact path removed (`output_path.unlink`), `none`
when the signature had no stored artifact or was not found. -/
def SignatureManager.delete_signature (m : SignatureManager)
    (signature_id : String) : SignatureManager × Bool × Option String :=
  match (m.get_by_id signature_id).1 with
  | none => (m, false, none)
  | some sig =>
      ({ signatures := aerase m.signatures sig.signature_id
         hash_index := aerase m.hash_index sig.file_hash },
       true,
       if sig.output_file == "" then none else some sig.output_file)

/-- `SignatureManager._load` of src/signatures.py, applied to the decoded
signature records of the durable file: rebuilds both the primary store
and the fingerprint index from the loaded signatures alone (the index is
never read from disk). -/
def loadFromSignatures (sigs : List Signature) : SignatureManager :=
  sigs.foldl
    (fun m sig =>
      { signatures := ainsert m.signatures sig.signature_id sig
        hash_index := ainsert m.hash_index sig.file_hash sig.signature_id })
    {}

/-- A file-system operation performed by the persistence layer.  The
payload of a write is the serialized data: the full signature list plus
the `updated_at` stamp. -/
inductive FsOp where
  | writeFile (path : String) (payload : List Signature × String)
  | rename (src : String) (dst : String)
deriving DecidableEq, Repr

/-- `SIGNATURES_FILE` of src/config.py (relative to the data directory).
-/
def SIGNATURES_FILE : String := "data/signatures.json"

/-- File operations performed by `SignatureManager._save`
(src/signatures.py lines 182–189): a single direct
`open(SIGNATURES_FILE, 'w')` + `json.dump` of the whole collection.
`updated_at` stands for `datetime.now().isoformat()`. -/
def SignatureManager.save_ops (m : SignatureManager)
    (updated_at : String) : List FsOp :=
  [FsOp.writeFile SIGNATURES_FILE (m.signatures.map (fun e => e.2), updated_at)]

/-- Whether a list of file operations ever writes directly to `target`. -/
def writesDirectly (ops : List FsOp) (target : String) : Bool :=
  ops.any (fun op =>
    match op with
    | FsOp.writeFile p _ => p == target
    | FsOp.rename _ _ => false)

/-- Whether a list of file operations installs `target` via a rename. -/
def hasRenameTo (ops : List FsOp) (target : String) : Bool :=
  ops.any (fun op =>
    match op with
    | FsOp.writeFile _ _ => false
    | FsOp.rename _ dst => dst == target)

/-- The write-to-temp-then-replace pattern for `target`: the final file
is installed by a rename and is never the destination of a direct write
(so a reader never observes a partially written `target`). -/
def usesTempThenReplace (ops : List FsOp) (target : String) : Bool :=
  hasRenameTo ops target && !(writesDirectly ops target)

/-- Store-level close flow of src/bt.py (lines 335–338 and 479–480):
resolve the signature by id, attempt `close_position`, and store the
updated signature back when the close succeeded. -/
def closeInStore (m : SignatureManager) (sig_id ticker : String)
    (price : ℚ) (reason today : String) : SignatureManager :=
  match (m.get_by_id sig_id).1 with
  | some sig =>
      let r := sig.close_position ticker price reason today
      if r.2 then m.update_signature r.1 else m
  | none => m

/-! ### Association-list lemmas -/

theorem alookup_nil {α : Type} (k : String) :
    alookup ([] : List (String × α)) k = none := rfl

theorem alookup_cons {α : Type} (a : String × α) (l : List (String × α))
    (k : String) :
    alookup (a :: l) k = if a.1 = k then some a.2 else alookup l k := by
  by_cases h : a.1 = k
  · simp [alookup, List.find?_cons_of_pos, h]
  · simp only [alookup]
    rw [List.find?_cons_of_neg]
    · simp [h]
    · simp [h]

theorem alookup_eq_none_iff_not_mem_keys {α : Type} (l : List (String × α))
    (k : String) :
    alookup l k = none ↔ k ∉ l.map (fun e => e.1) := by
  induction l with
  | nil => simp [alookup_nil]
  | cons a l ih =>
      rw [alookup_cons, List.map_cons]
      by_cases h : a.1 = k
      · simp [h]
      · simp only [if_neg h, ih, List.mem_cons]
        constructor
        · intro hn hk
          rcases hk with hk | hk
          · exact h hk.symm
          · exact hn hk
        · intro hn hk
          exact hn (Or.inr hk)

theorem alookup_isSome_iff_mem_keys {α : Type} (l : List (String × α))
    (k : String) :
    (alookup l k).isSome = true ↔ k ∈ l.map (fun e => e.1) := by
  rw [← not_iff_not, ← alookup_eq_none_iff_not_mem_keys]
  cases alookup l k <;> simp

theorem alookup_mem {α : Type} {l : List (String × α)} {k : String}
    {v : α} (h : alookup l k = some v) : (k, v) ∈ l := by
  induction l with
  | nil => simp [alookup_nil] at h
  | cons a l ih =>
      obtain ⟨ka, va⟩ := a
      rw [alookup_cons] at h
      by_cases hk : ka = k
      · subst hk
        simp only [if_pos rfl] at h
        obtain rfl := Option.some_inj.mp h
        exact List.mem_cons_self _ _
      · simp only [if_neg hk] at h
        exact List.mem_cons_of_mem _ (ih h)

theorem alookup_of_mem_nodup {α : Type} {l : List (String × α)}
    {k : String} {v : α} (hmem : (k, v) ∈ l)
    (hnd : (l.map (fun e => e.1)).Nodup) : alookup l k = some v := by
  induction l with
  | nil => simp at hmem
  | cons a l ih =>
      simp only [List.map_cons, List.nodup_cons] at hnd
      rw [alookup_cons]
      rcases List.mem_cons.mp hmem with h | h
      · subst h
        simp
      · have hk : a.1 ≠ k := by
          intro he
          exact hnd.1 (he ▸ (List.mem_map.mpr ⟨(k, v), h, rfl⟩))
        simp [hk, ih h hnd.2]

theorem ainsert_of_not_mem {α : Type} (l : List (String × α)) (k : String)
    (v : α) (h : alookup l k = none) : ainsert l k v = l ++ [(k, v)] := by
  have hf : l.find? (fun p => p.1 == k) = none := by
    simpa [alookup, Option.map_eq_none'] using h
  simp [ainsert, hf]

theorem alookup_map_replace {α : Type} (l : List (String × α))
    (k k' : String) (v : α) :
    alookup (l.map (fun p => if p.1 == k then (k, v) else p)) k' =
      if k' = k then (alookup l k).map (fun _ => v) else alookup l k' := by
  have hfun : (fun p : String × α => if p.1 == k then (k, v) else p) =
      (fun p => if p.1 = k then (k, v) else p) := by
    funext p
    by_cases h : p.1 = k <;> simp [h]
  rw [hfun]
  induction l with
  | nil => simp [alookup_nil]
  | cons a l ih =>
      obtain ⟨ka, va⟩ := a
      by_cases hk : ka = k
      · subst hk
        by_cases hk' : k' = ka
        · subst hk'
          simp [alookup_cons, ih]
        · have hka : ¬ka = k' := fun h => hk' h.symm
          simp [alookup_cons, hk', hka, ih]
      · by_cases hk' : ka = k'
        · subst hk'
          simp [alookup_cons, hk]
        · simp [alookup_cons, hk, hk', ih]

theorem alookup_append_single {α : Type} (l : List (String × α))
    (k k' : String) (v : α) :
    alookup (l ++ [(k, v)]) k' =
      match alookup l k' with
      | some w => some w
      | none => if k = k' then some v else none := by
  induction l with
  | nil => simp [alookup_nil, alookup_cons]
  | cons a l ih =>
      obtain ⟨ka, va⟩ := a
      rw [List.cons_append, alookup_cons, alookup_cons]
      by_cases hk : ka = k'
      · simp [hk]
      · simp [hk, ih]

/-- Full characterization of lookup after a Python dict assignment. -/
theorem alookup_ainsert {α : Type} (l : List (String × α))
    (k k' : String) (v : α) :
    alookup (ainsert l k v) k' =
      if k' = k then some v else alookup l k' := by
  by_cases hf : (l.find? (fun p => p.1 == k)).isSome
  · rw [ainsert, if_pos hf]
    rw [alookup_map_replace]
    by_cases hk : k' = k
    · subst hk
      have hs : (alookup l k').isSome := by
        simpa [alookup, Option.isSome_map'] using hf
      obtain ⟨w, hw⟩ := Option.isSome_iff_exists.mp hs
      simp [hw]
    · simp [hk]
  · have h0 : alookup l k = none := by
      simp only [alookup, Option.map_eq_none']
      exact Option.not_isSome_iff_eq_none.mp hf
    rw [ainsert, if_neg hf, alookup_append_single]
    by_cases hk : k' = k
    · subst hk
      simp [h0]
    · have hk2 : ¬k = k' := fun h => hk h.symm
      cases hl : alookup l k' with
      | some w => simp [hk]
      | none => simp [hk, hk2]

theorem alookup_ainsert_self {α : Type} (l : List (String × α))
    (k : String) (v : α) : alookup (ainsert l k v) k = some v := by
  simp [alookup_ainsert]

theorem alookup_ainsert_ne {α : Type} (l : List (String × α))
    (k k' : String) (v : α) (h : k' ≠ k) :
    alookup (ainsert l k v) k' = alookup l k' := by
  simp [alookup_ainsert, h]

theorem aerase_cons {α : Type} (a : String × α) (l : List (String × α))
    (k : String) :
    aerase (a :: l) k = if a.1 = k then aerase l k else a :: aerase l k := by
  by_cases h : a.1 = k <;> simp [aerase, h]

theorem mem_aerase {α : Type} (l : List (String × α)) (k : String)
    (p : String × α) : p ∈ aerase l k ↔ p ∈ l ∧ ¬p.1 = k := by
  simp [aerase, List.mem_filter]

theorem alookup_aerase_self {α : Type} (l : List (String × α))
    (k : String) : alookup (aerase l k) k = none := by
  rw [alookup_eq_none_iff_not_mem_keys]
  intro hmem
  obtain ⟨p, hp, hpk⟩ := List.mem_map.mp hmem
  exact ((mem_aerase l k p).mp hp).2 hpk

theorem alookup_aerase_ne {α : Type} (l : List (String × α))
    (k k' : String) (h : k' ≠ k) :
    alookup (aerase l k) k' = alookup l k' := by
  induction l with
  | nil => simp [aerase]
  | cons a l ih =>
      rw [aerase_cons]
      by_cases hk : a.1 = k
      · have hne : ¬a.1 = k' := fun he => h (he.symm.trans hk)
        rw [if_pos hk, alookup_cons, if_neg hne, ih]
      · rw [if_neg hk, alookup_cons, alookup_cons]
        by_cases hk' : a.1 = k'
        · simp [hk']
        · simp only [if_neg hk']
          exact ih

theorem mem_ainsert {α : Type} (l : List (String × α)) (k : String)
    (v : α) (p : String × α) :
    p ∈ ainsert l k v ↔ p = (k, v) ∨ (p ∈ l ∧ ¬p.1 = k) := by
  have hfun : (fun q : String × α => if q.1 == k then (k, v) else q) =
      (fun q => if q.1 = k then (k, v) else q) := by
    funext q
    by_cases h : q.1 = k <;> simp [h]
  by_cases hf : (l.find? (fun q => q.1 == k)).isSome
  · rw [ainsert, if_pos hf, hfun]
    constructor
    · intro hp
      obtain ⟨q, hq, hqe⟩ := List.mem_map.mp hp
      by_cases hqk : q.1 = k
      · left
        rw [← hqe, if_pos hqk]
      · right
        rw [← hqe, if_neg hqk]
        exact ⟨hq, hqk⟩
    · intro hp
      rcases hp with rfl | ⟨hp, hpk⟩
      · have hs : (alookup l k).isSome := by
          simpa [alookup, Option.isSome_map'] using hf
        obtain ⟨w, hw⟩ := Option.isSome_iff_exists.mp hs
        have hqmem := alookup_mem hw
        exact List.mem_map.mpr ⟨(k, w), hqmem, by simp⟩
      · exact List.mem_map.mpr ⟨p, hp, by rw [if_neg hpk]⟩
  · have h0 : alookup l k = none := by
      simp only [alookup, Option.map_eq_none']
      exact Option.not_isSome_iff_eq_none.mp hf
    have hnk : k ∉ l.map (fun e => e.1) :=
      (alookup_eq_none_iff_not_mem_keys l k).mp h0
    rw [ainsert, if_neg hf]
    simp only [List.mem_append, List.mem_singleton]
    constructor
    · intro hp
      rcases hp with hp | hp
      · right
        refine ⟨hp, fun hpk => hnk ?_⟩
        exact List.mem_map.mpr ⟨p, hp, hpk⟩
      · left
        exact hp
    · intro hp
      rcases hp with rfl | ⟨hp, _⟩
      · right
        rfl
      · left
        exact hp

theorem keys_ainsert_of_mem {α : Type} (l : List (String × α))
    (k : String) (v : α) (h : (alookup l k).isSome) :
    (ainsert l k v).map (fun e => e.1) = l.map (fun e => e.1) := by
  have hf : (l.find? (fun q => q.1 == k)).isSome := by
    simpa [alookup, Option.isSome_map'] using h
  rw [ainsert, if_pos hf, List.map_map]
  refine List.map_congr_left ?_
  intro p _
  by_cases hp : p.1 = k
  · simp [hp]
  · simp [hp]

theorem keys_ainsert_of_not_mem {α : Type} (l : List (String × α))
    (k : String) (v : α) (h : alookup l k = none) :
    (ainsert l k v).map (fun e => e.1) = l.map (fun e => e.1) ++ [k] := by
  rw [ainsert_of_not_mem l k v h]
  simp

theorem nodup_keys_ainsert {α : Type} (l : List (String × α))
    (k : String) (v : α) (h : (l.map (fun e => e.1)).Nodup) :
    ((ainsert l k v).map (fun e => e.1)).Nodup := by
  cases hl : alookup l k with
  | some w =>
      rw [keys_ainsert_of_mem l k v (by simp [hl])]
      exact h
  | none =>
      rw [keys_ainsert_of_not_mem l k v hl]
      have hnk : k ∉ l.map (fun e => e.1) :=
        (alookup_eq_none_iff_not_mem_keys l k).mp hl
      simp [List.nodup_append, h, hnk]

theorem nodup_keys_aerase {α : Type} (l : List (String × α))
    (k : String) (h : (l.map (fun e => e.1)).Nodup) :
    ((aerase l k).map (fun e => e.1)).Nodup := by
  have hsub : (aerase l k).Sublist l := List.filter_sublist l
  exact h.sublist (hsub.map (fun e => e.1))

/-! ### String append cancellation, used for fingerprint sensitivity -/

theorem str_append_right_cancel {a b s : String} (h : a ++ s = b ++ s) :
    a = b := by
  have hd := congrArg String.data h
  rw [String.data_append, String.data_append] at hd
  exact String.ext (List.append_cancel_right hd)

theorem str_append_left_cancel {s a b : String} (h : s ++ a = s ++ b) :
    a = b := by
  have hd := congrArg String.data h
  rw [String.data_append, String.data_append] at hd
  exact String.ext (List.append_cancel_left hd)

/-! ### Concrete fixtures -/

/-- A position whose entry price is zero, as materialized when the price
source reports a zero price. -/
def zeroEntryPos : Position :=
  { ticker := ("ZZZ")
    category := ("strong_buy")
    entry_price := 0
    entry_date := ("2025-01-01")
    entry_type := ("close") }

/-- A position entered at 100, the spec's own P/L example. -/
def posEntry100 : Position :=
  { ticker := ("AAA")
    category := ("strong_buy")
    entry_price := 100
    entry_date := ("2025-01-01")
    entry_type := ("close") }

/-! ### C2 — P/L on close -/

/-- Claim C2 counterexample: the claim says that for non-positive entry
price the close operation records `pnl_pct` and `pnl_amt` as undefined
(`None`), but `Position.close` on an entry price of 0 with exit price 5
records `pnl_pct = 0` and `pnl_amt = 5` — defined values, not `None`. -/
theorem C2_counterexample :
    zeroEntryPos.entry_price ≤ 0 ∧
    (zeroEntryPos.close 5 ("sell_signal") ("2025-01-02")).pnl_pct =
      some 0 ∧
    (zeroEntryPos.close 5 ("sell_signal") ("2025-01-02")).pnl_pct ≠
      none ∧
    (zeroEntryPos.close 5 ("sell_signal") ("2025-01-02")).pnl_amt =
      some 5 := by
  refine ⟨by norm_num [zeroEntryPos],
    by norm_num [zeroEntryPos, Position.close],
    by simp [zeroEntryPos, Position.close],
    by norm_num [zeroEntryPos, Position.close]⟩

/-- Claim C2 (amended): `Position.close` always records
`pnl_amt = exitPrice − entryPrice`; for positive entry price it records
`pnl_pct = (exitPrice − entryPrice) / entryPrice × 100`, and for
non-positive entry price it records `pnl_pct = 0` (a defined zero, not an
undefined value), never dividing by the non-positive entry price. -/
theorem C2_close_pnl (p : Position) (price : ℚ) (reason today : String) :
    (p.close price reason today).pnl_amt =
      some (price - p.entry_price) ∧
    (0 < p.entry_price →
      (p.close price reason today).pnl_pct =
        some ((price - p.entry_price) / p.entry_price * 100)) ∧
    (p.entry_price ≤ 0 →
      (p.close price reason today).pnl_pct = some 0) := by
  refine ⟨rfl, fun h => ?_, fun h => ?_⟩
  · simp [Position.close, h]
  · simp [Position.close, not_lt.mpr h]

/-- Witness for C2_close_pnl at the spec's example (entry 100, exit 110):
P/L% is +10 and absolute P/L is +10. -/
theorem C2_close_pnl_witness :
    (posEntry100.close 110 ("sell_signal") ("2025-01-02")).pnl_pct =
      some ((110 - posEntry100.entry_price) / posEntry100.entry_price
        * 100) ∧
    (posEntry100.close 110 ("sell_signal") ("2025-01-02")).pnl_amt =
      some (110 - posEntry100.entry_price) := by
  have h := C2_close_pnl posEntry100 110 ("sell_signal") ("2025-01-02")
  exact ⟨h.2.1 (by norm_num [posEntry100]), h.1⟩

/-! ### C4 — save is a direct overwrite, not temp-then-replace -/

/-- Claim C4 counterexample: the claim says every save uses the
write-to-temp-then-replace pattern, but the file operations of `_save`
on the empty store are a single direct write to the signatures file and
contain no rename at all. -/
theorem C4_counterexample :
    usesTempThenReplace
      (SignatureManager.save_ops {} ("2025-01-01T00:00:00"))
      SIGNATURES_FILE = false := by
  decide

/-- Claim C4 (amended): every save writes the entire signature collection
in a single direct `open(SIGNATURES_FILE, 'w')` write; the
write-to-temp-then-replace pattern is not used, so atomic replacement is
not provided by `_save` and a crash mid-save can leave a partially
written signatures file. -/
theorem C4_save_direct_write (m : SignatureManager)
    (updated_at : String) :
    m.save_ops updated_at =
      [FsOp.writeFile SIGNATURES_FILE
        (m.signatures.map (fun e => e.2), updated_at)] ∧
    writesDirectly (m.save_ops updated_at) SIGNATURES_FILE = true ∧
    usesTempThenReplace (m.save_ops updated_at) SIGNATURES_FILE =
      false := by
  refine ⟨rfl, ?_, ?_⟩ <;>
    simp [SignatureManager.save_ops, writesDirectly, usesTempThenReplace,
      hasRenameTo]

/-! ### C10 — fingerprint concatenation ambiguity -/

/-- Claim C10: the fingerprint hashes `content + ":" + mode`, so the
pairs `(c + ":" + a, b)` and `(c, a + ":" + b)` always collide, for any
digest function; in particular the distinct requests `("a:x", "y")` and
`("a", "x:y")` share a fingerprint, so deduplication can conflate two
different ingestion requests. -/
theorem C10_fingerprint_conflation :
    (∀ (H : String → String) (c a b : String),
      compute_file_hash H (c ++ ":" ++ a) b =
        compute_file_hash H c (a ++ ":" ++ b)) ∧
    ((("a:x" : String), ("y" : String)) ≠ (("a"), ("x:y"))) ∧
    (∀ H : String → String,
      compute_file_hash H ("a:x") ("y") =
        compute_file_hash H ("a") ("x:y")) := by
  have hassoc : ∀ c a b : String,
      c ++ ":" ++ a ++ ":" ++ b = c ++ ":" ++ (a ++ ":" ++ b) := by
    intro c a b
    apply String.ext
    simp [String.data_append, List.append_assoc]
  refine ⟨fun H c a b => ?_, by decide, fun H => ?_⟩
  · unfold compute_file_hash
    rw [hassoc]
  · unfold compute_file_hash
    have h1 : (("a:x" : String) ++ ":" ++ "y") = ("a:x:y") := by decide
    have h2 : (("a" : String) ++ ":" ++ "x:y") = ("a:x:y") := by decide
    rw [h1, h2]

/-! ### C7 — fingerprint determinism and sensitivity -/

/-- Claim C7: the fingerprint is deterministic — identical
(content, mode) pairs give the identical fingerprint — and sensitive: a
content difference under the same mode, or a mode difference under the
same content, gives a different fingerprint.  `H` abstracts the SHA-256
hex digest; sensitivity holds under the spec's collision-resistance
requirement, taken here as injectivity of `H` (determinism needs no
hypothesis). -/
theorem C7_fingerprint_sensitivity (H : String → String)
    (hinj : Function.Injective H) (c₁ c₂ m₁ m₂ : String) :
    (c₁ = c₂ → m₁ = m₂ →
      compute_file_hash H c₁ m₁ = compute_file_hash H c₂ m₂) ∧
    (m₁ = m₂ → c₁ ≠ c₂ →
      compute_file_hash H c₁ m₁ ≠ compute_file_hash H c₂ m₂) ∧
    (c₁ = c₂ → m₁ ≠ m₂ →
      compute_file_hash H c₁ m₁ ≠ compute_file_hash H c₂ m₂) := by
  refine ⟨fun h1 h2 => by rw [h1, h2], fun hm hc he => ?_,
    fun hc hm he => ?_⟩
  · subst hm
    unfold compute_file_hash at he
    have h3 := hinj (str_append_left_cancel he)
    exact hc (str_append_right_cancel (str_append_right_cancel h3))
  · subst hc
    unfold compute_file_hash at he
    have h3 := hinj (str_append_left_cancel he)
    exact hm (str_append_left_cancel h3)

/-- Witness for C7_fingerprint_sensitivity: with the identity digest,
changing one byte of content (`abc` → `abd`) under mode `strong`, or
changing the mode (`strong` → `early`) with identical content, changes
the fingerprint. -/
theorem C7_fingerprint_sensitivity_witness :
    compute_file_hash id ("abc") ("strong") ≠
      compute_file_hash id ("abd") ("strong") ∧
    compute_file_hash id ("abc") ("strong") ≠
      compute_file_hash id ("abc") ("early") := by
  constructor
  · exact (C7_fingerprint_sensitivity id (fun a b hab => hab)
      ("abc") ("abd") ("strong") ("strong")).2.1 rfl (by decide)
  · exact (C7_fingerprint_sensitivity id (fun a b hab => hab)
      ("abc") ("abc") ("strong") ("early")).2.2 rfl (by decide)

/-! ### C6 — per-signature summary -/

/-- A closed position fixture with a given realized P/L percentage. -/
def closedPosAt (t : String) (pct : ℚ) : Position :=
  { ticker := t
    category := ("strong_buy")
    entry_price := 100
    entry_date := ("2025-01-01")
    entry_type := ("close")
    status := ("closed")
    exit_price := some (100 + pct)
    exit_date := some ("2025-01-02")
    exit_reason := some ("sell_signal")
    pnl_pct := some pct
    pnl_amt := some pct }

/-- The spec's aggregate example: closed positions at P/L%
{+10, −4, +6}. -/
def sigExample : Signature :=
  { signature_id := ("20250101_100000_abcd1234")
    file_hash := ("sha256:abcd")
    created_at := ("2025-01-01T10:00:00")
    mode := ("strong")
    market_status := ("Market open")
    source_file := ("scan.txt")
    positions := [(("AAA"), closedPosAt ("AAA") 10),
                  (("BBB"), closedPosAt ("BBB") (-4)),
                  (("CCC"), closedPosAt ("CCC") 6)] }

/-- Claim C6: `get_summary` reports total/open/closed counts, realized
P/L as the sum (not average) of the closed positions' P/L percentages,
win count as the number of closed positions with P/L > 0, and win rate
as win count / closed count × 100, with 0 (not undefined) when no
position is closed; on the example {+10, −4, +6} it yields realized P/L
+12, win count 2 and win rate 200/3 (= 66.66…, the spec's 66.7%). -/
theorem C6_signature_summary (s : Signature) :
    (s.get_summary.total_positions = s.positions.length ∧
     s.get_summary.open_positions = s.openPositions.length ∧
     s.get_summary.closed_positions = s.closedPositions.length ∧
     s.get_summary.realized_pnl_pct =
       (s.closedPositions.map (fun p => p.pnl_pct.getD 0)).sum ∧
     s.get_summary.win_count =
       (s.closedPositions.filter
         (fun p => decide (p.pnl_pct.getD 0 > 0))).length ∧
     (s.closedPositions.length ≠ 0 →
       s.get_summary.win_rate =
         (s.get_summary.win_count : ℚ) /
           (s.closedPositions.length : ℚ) * 100) ∧
     (s.closedPositions.length = 0 → s.get_summary.win_rate = 0)) ∧
    sigExample.get_summary =
      { total_positions := 3
        open_positions := 0
        closed_positions := 3
        realized_pnl_pct := 12
        win_count := 2
        loss_count := 1
        win_rate := 200 / 3 } := by
  refine ⟨⟨rfl, rfl, rfl, rfl, rfl, fun h => ?_, fun h => ?_⟩, ?_⟩
  · simp only [Signature.get_summary]
    rw [if_pos h]
  · simp only [Signature.get_summary]
    rw [if_neg (by simp [h])]
  · norm_num [sigExample, closedPosAt, Signature.get_summary,
      Signature.closedPositions, Signature.openPositions,
      Summary.mk.injEq]
    decide

/-- Witness for C6_signature_summary: on the example signature the
closed count is nonzero, so the win rate equals
win count / closed count × 100. -/
theorem C6_signature_summary_witness :
    sigExample.get_summary.win_rate =
      (sigExample.get_summary.win_count : ℚ) /
        (sigExample.closedPositions.length : ℚ) * 100 :=
  (C6_signature_summary sigExample).1.2.2.2.2.2.1 (by
    simp [sigExample, closedPosAt, Signature.closedPositions])

/-! ### C5 — position lifecycle monotonicity -/

/-- Claim C5: position status is monotonic.  Closing an absent or
already-non-open ticker is a failing no-op that leaves the signature
(and hence the exit fields recorded by any earlier close) unchanged; a
successful close marks the position closed, and any second close of the
same ticker fails and changes nothing, so no operation returns a closed
position to open. -/
theorem C5_close_monotonic (s : Signature) (ticker : String) (price : ℚ)
    (reason today : String) :
    ((alookup s.positions ticker).map Position.status ≠ some ("open") →
      s.close_position ticker price reason today = (s, false)) ∧
    (∀ p, alookup s.positions ticker = some p → p.status = ("open") →
      (s.close_position ticker price reason today).2 = true ∧
      (alookup (s.close_position ticker price reason today).1.positions
          ticker).map Position.status = some ("closed") ∧
      (∀ (price₂ : ℚ) (reason₂ today₂ : String),
        (s.close_position ticker price reason today).1.close_position
            ticker price₂ reason₂ today₂ =
          ((s.close_position ticker price reason today).1, false))) := by
  constructor
  · intro hne
    unfold Signature.close_position
    cases hl : alookup s.positions ticker with
    | none => rfl
    | some p =>
        rw [hl] at hne
        have hp : ¬p.status = ("open") := by
          intro hs
          exact hne (by simp [hs])
        simp [hp]
  · intro p hp hopen
    have hcl : s.close_position ticker price reason today =
        ({ s with positions :=
            ainsert s.positions ticker (p.close price reason today) },
          true) := by
      unfold Signature.close_position
      rw [hp]
      simp [hopen]
    refine ⟨by rw [hcl], ?_, ?_⟩
    · rw [hcl]
      simp only []
      rw [alookup_ainsert_self]
      rfl
    · intro price₂ reason₂ today₂
      rw [hcl]
      unfold Signature.close_position
      simp only []
      rw [alookup_ainsert_self]
      simp [Position.close]

/-- A signature with one open position, for the C5 witness. -/
def sigOneOpen : Signature :=
  { signature_id := ("20250101_100000_ffff0000")
    file_hash := ("sha256:ffff")
    created_at := ("2025-01-01T10:00:00")
    mode := ("strong")
    market_status := ("Market open")
    source_file := ("scan.txt")
    positions := [(("AAA"), posEntry100)] }

/-- Witness for C5_close_monotonic: closing the open ticker AAA succeeds
and marks it closed, and a second close of AAA fails and leaves the
signature unchanged. -/
theorem C5_close_monotonic_witness :
    (sigOneOpen.close_position ("AAA") 110 ("sell_signal")
        ("2025-01-02")).2 = true ∧
    (alookup (sigOneOpen.close_position ("AAA") 110 ("sell_signal")
        ("2025-01-02")).1.positions ("AAA")).map Position.status =
      some ("closed") ∧
    ((sigOneOpen.close_position ("AAA") 110 ("sell_signal")
        ("2025-01-02")).1.close_position ("AAA") 95 ("manual")
        ("2025-01-03") =
      ((sigOneOpen.close_position ("AAA") 110 ("sell_signal")
        ("2025-01-02")).1, false)) := by
  have h := (C5_close_monotonic sigOneOpen ("AAA") 110 ("sell_signal")
    ("2025-01-02")).2 posEntry100 (by decide) (by decide)
  exact ⟨h.1, h.2.1, h.2.2 95 ("manual") ("2025-01-03")⟩

/-! ### C9 — prefix lookup -/

/-- Claim C9: identity lookup is unambiguous.  An exact match of the
given string wins; otherwise with exactly one stored identity having the
string as a prefix that signature is returned; with several matching
identities the lookup returns no signature and reports candidates (the
first five matches, as printed by the source); with no match it returns
nothing. -/
theorem C9_prefix_lookup (m : SignatureManager) (q : String) :
    (∀ sig, alookup m.signatures q = some sig →
      m.get_by_id q = (some sig, [])) ∧
    (alookup m.signatures q = none →
      ∀ k, (m.signatures.map (fun e => e.1)).filter
          (fun s => strStartsWith s q) = [k] →
        m.get_by_id q = (alookup m.signatures k, []) ∧
          (alookup m.signatures k).isSome = true) ∧
    (alookup m.signatures q = none →
      2 ≤ ((m.signatures.map (fun e => e.1)).filter
          (fun s => strStartsWith s q)).length →
      (m.get_by_id q).1 = none ∧
      (m.get_by_id q).2 = ((m.signatures.map (fun e => e.1)).filter
          (fun s => strStartsWith s q)).take 5) ∧
    (alookup m.signatures q = none →
      (m.signatures.map (fun e => e.1)).filter
          (fun s => strStartsWith s q) = [] →
      m.get_by_id q = (none, [])) := by
  refine ⟨fun sig hsig => ?_, fun hq k hk => ?_, fun hq hlen => ?_,
    fun hq hnil => ?_⟩
  · unfold SignatureManager.get_by_id
    rw [hsig]
  · have hmem : k ∈ (m.signatures.map (fun e => e.1)).filter
        (fun s => strStartsWith s q) := by
      rw [hk]
      exact List.mem_singleton.mpr rfl
    have hkey : k ∈ m.signatures.map (fun e => e.1) :=
      (List.mem_filter.mp hmem).1
    refine ⟨?_, (alookup_isSome_iff_mem_keys m.signatures k).mpr hkey⟩
    unfold SignatureManager.get_by_id
    rw [hq]
    simp only [hk]
  · unfold SignatureManager.get_by_id
    rw [hq]
    simp only []
    cases hms : (m.signatures.map (fun e => e.1)).filter
        (fun s => strStartsWith s q) with
    | nil => rw [hms] at hlen; simp at hlen
    | cons x t =>
        cases t with
        | nil => rw [hms] at hlen; simp at hlen
        | cons y t' => exact ⟨rfl, rfl⟩
  · unfold SignatureManager.get_by_id
    rw [hq]
    simp only [hnil]

/-- A bare signature fixture (no positions) with a given identity and
fingerprint. -/
def bareSig (sid fh : String) : Signature :=
  { signature_id := sid
    file_hash := fh
    created_at := ("2025-01-01T10:00:00")
    mode := ("strong")
    market_status := ("Market open")
    source_file := ("scan.txt") }

/-- A store holding the spec's two prefix-lookup example identities. -/
def mgrTwo : SignatureManager :=
  { signatures :=
      [(("20250101_100000_ab12"),
        bareSig ("20250101_100000_ab12") ("sha256:ab12")),
       (("20250101_100000_ab13"),
        bareSig ("20250101_100000_ab13") ("sha256:ab13"))]
    hash_index :=
      [(("sha256:ab12"), ("20250101_100000_ab12")),
       (("sha256:ab13"), ("20250101_100000_ab13"))] }

/-- Witness for C9_prefix_lookup at the spec's example: with identities
`20250101_100000_ab12` and `20250101_100000_ab13` stored, looking up
`20250101_1000` returns no signature and reports both candidates. -/
theorem C9_prefix_lookup_witness :
    (mgrTwo.get_by_id ("20250101_1000")).1 = none ∧
    (mgrTwo.get_by_id ("20250101_1000")).2 =
      [("20250101_100000_ab12"), ("20250101_100000_ab13")] := by
  have h := (C9_prefix_lookup mgrTwo ("20250101_1000")).2.2.1
    (by decide) (by decide)
  exact ⟨h.1, h.2.trans (by decide)⟩

/-! ### C1 — createOrGet idempotence -/

/-- A deterministic environment for concrete create calls: the digest is
the identity function and every requested ticker is priced at 10. -/
def envSimple : CreateEnv :=
  { H := fun s => s
    now_ts := ("20250101_100000")
    now_iso := ("2025-01-01T10:00:00")
    now_day := ("20250101")
    market_description := ("Market open")
    get_entry_prices := fun tickers => tickers.map (fun t =>
      (t, { price := 10
            date := ("2025-01-01")
            price_type := ("open") })) }

/-- Parsed report fixture with all categories populated. -/
def parsedExample : List (String × List String) :=
  [(("strong_buys"), [("AAPL"), ("MSFT")]),
   (("early_buys"), [("TSLA"), ("AAPL")]),
   (("buys"), [("XYZ")]),
   (("dividends"), [("KO")]),
   (("sells"), [])]

/-- Claim C1: `create_signature` is idempotent.  When the fingerprint of
(content, mode) is already indexed and resolves to a stored signature,
the call returns that signature with the flag "not new", issues no price
fetch, writes no artifact, and leaves the store exactly as it was; and
after any call, a second call with byte-identical content and the same
mode (same digest function; timestamps, source label and parsed lists
may differ) returns the same signature identity, "not new", with no
fetch and no artifact write, leaving the state of the first call
untouched. -/
theorem C1_create_idempotent (m : SignatureManager)
    (env env' : CreateEnv) (content source source' mode : String)
    (parsed parsed' : List (String × List String))
    (hH : env'.H = env.H) :
    (∀ sig,
      m.get_by_hash (compute_file_hash env.H content mode) = some sig →
      m.create_signature env content source mode parsed =
        (m, sig, false, { fetched := none, artifact := none })) ∧
    ((m.create_signature env content source mode parsed).1.create_signature
        env' content source' mode parsed' =
      ((m.create_signature env content source mode parsed).1,
       (m.create_signature env content source mode parsed).2.1, false,
       { fetched := none, artifact := none })) := by
  have key : ∀ (mm : SignatureManager) (ee : CreateEnv) (src : String)
      (ps : List (String × List String)) (sig : Signature),
      mm.get_by_hash (compute_file_hash ee.H content mode) = some sig →
      mm.create_signature ee content src mode ps =
        (mm, sig, false, { fetched := none, artifact := none }) := by
    intro mm ee src ps sig hsig
    simp only [SignatureManager.create_signature, hsig]
  refine ⟨fun sig hsig => key m env source parsed sig hsig, ?_⟩
  cases hc : m.get_by_hash (compute_file_hash env.H content mode) with
  | some sig =>
      rw [key m env source parsed sig hc]
      exact key m env' source' parsed' sig (by rw [hH]; exact hc)
  | none =>
      have h2 : (m.create_signature env content source mode
          parsed).1.get_by_hash (compute_file_hash env.H content mode) =
          some (m.create_signature env content source mode
            parsed).2.1 := by
        simp only [SignatureManager.create_signature, hc]
        simp only [SignatureManager.get_by_hash, alookup_ainsert_self]
      exact key (m.create_signature env content source mode parsed).1
        env' source' parsed'
        (m.create_signature env content source mode parsed).2.1
        (by rw [hH]; exact h2)

/-- Witness for C1_create_idempotent: after creating from the empty
store, a byte-identical ingestion under the same mode returns the stored
signature, "not new", with no price fetch, no artifact write, and no
state change. -/
theorem C1_create_idempotent_witness :
    (SignatureManager.create_signature {} envSimple ("report contents")
        ("a.txt") ("strong") parsedExample).1.create_signature envSimple
        ("report contents") ("b.txt") ("strong") parsedExample =
      ((SignatureManager.create_signature {} envSimple
          ("report contents") ("a.txt") ("strong") parsedExample).1,
       (SignatureManager.create_signature {} envSimple
          ("report contents") ("a.txt") ("strong") parsedExample).2.1,
       false, { fetched := none, artifact := none }) :=
  (C1_create_idempotent {} envSimple envSimple ("report contents")
    ("a.txt") ("b.txt") ("strong") parsedExample parsedExample rfl).2

/-! ### C3 — ticker selection by mode -/

/-- Parsed report fixture whose only tickers are in the plain `buys`
category. -/
def parsedBuysOnly : List (String × List String) :=
  [(("strong_buys"), []),
   (("early_buys"), []),
   (("buys"), [("XYZ")]),
   (("dividends"), []),
   (("sells"), [])]

/-- Claim C3 counterexample: the claim says 'all' mode tracks the union
of strong-buy, early-buy and buy lists, but `create_signature` in 'all'
mode never consults the plain `buys` list: on a report whose only ticker
XYZ is in `buys`, the selection is empty, no ticker is sent to the price
fetcher, and the created signature holds no positions. -/
theorem C3_counterexample :
    ("XYZ") ∈ (alookup parsedBuysOnly ("buys")).getD [] ∧
    (selectTickers ("all") parsedBuysOnly).1 = [] ∧
    (SignatureManager.create_signature {} envSimple ("report")
        ("scan.txt") ("all") parsedBuysOnly).2.1.positions = [] ∧
    (SignatureManager.create_signature {} envSimple ("report")
        ("scan.txt") ("all") parsedBuysOnly).2.2.2.fetched =
      some [] := by
  decide

theorem assign_fold_fst (cat : String) (l : List String)
    (acc : List String × List (String × String)) :
    (l.foldl (fun a t => (a.1 ++ [t], ainsert a.2 t cat)) acc).1 =
      acc.1 ++ l := by
  induction l generalizing acc with
  | nil => simp
  | cons t rest ih =>
      rw [List.foldl_cons, ih]
      simp

theorem assign_fold_lookup (cat : String) (l : List String)
    (acc : List String × List (String × String)) (x : String) :
    alookup (l.foldl (fun a t => (a.1 ++ [t], ainsert a.2 t cat)) acc).2
        x = if x ∈ l then some cat else alookup acc.2 x := by
  induction l generalizing acc with
  | nil => simp
  | cons t rest ih =>
      rw [List.foldl_cons, ih]
      by_cases hx : x ∈ rest
      · simp [hx]
      · by_cases hxt : x = t
        · subst hxt
          simp [hx, alookup_ainsert_self]
        · simp [hx, hxt, alookup_ainsert_ne _ _ _ _ hxt]

theorem dedup_fold_fst (cat : String) (l : List String) (hnd : l.Nodup)
    (acc : List String × List (String × String)) :
    (l.foldl (fun a t => if (alookup a.2 t).isSome then a
        else (a.1 ++ [t], ainsert a.2 t cat)) acc).1 =
      acc.1 ++ l.filter (fun t => !(alookup acc.2 t).isSome) := by
  induction l generalizing acc with
  | nil => simp
  | cons t rest ih =>
      have hnd' : rest.Nodup := (List.nodup_cons.mp hnd).2
      have htr : t ∉ rest := (List.nodup_cons.mp hnd).1
      rw [List.foldl_cons]
      by_cases hs : (alookup acc.2 t).isSome
      · have hne : ¬alookup acc.2 t = none := by
          intro he
          rw [he] at hs
          simp at hs
        rw [if_pos hs, ih hnd']
        simp [List.filter_cons, hne]
      · have hnone : alookup acc.2 t = none :=
          Option.not_isSome_iff_eq_none.mp hs
        rw [if_neg hs, ih hnd']
        have hfeq : rest.filter
            (fun u => !(alookup (ainsert acc.2 t cat) u).isSome) =
            rest.filter (fun u => !(alookup acc.2 u).isSome) := by
          apply List.filter_congr
          intro u hu
          have hut : u ≠ t := fun he => htr (he ▸ hu)
          rw [alookup_ainsert_ne _ _ _ _ hut]
        rw [hfeq]
        simp [List.filter_cons, hnone]

theorem dedup_fold_lookup (cat : String) (l : List String)
    (acc : List String × List (String × String)) (x : String) :
    alookup (l.foldl (fun a t => if (alookup a.2 t).isSome then a
        else (a.1 ++ [t], ainsert a.2 t cat)) acc).2 x =
      if x ∈ l ∧ alookup acc.2 x = none then some cat
      else alookup acc.2 x := by
  induction l generalizing acc with
  | nil => simp
  | cons t rest ih =>
      rw [List.foldl_cons]
      by_cases hs : (alookup acc.2 t).isSome
      · rw [if_pos hs, ih]
        by_cases hxt : x = t
        · subst hxt
          have hne : ¬alookup acc.2 x = none := by
            intro he
            rw [he] at hs
            simp at hs
          simp [hne]
        · simp [hxt]
      · rw [if_neg hs, ih]
        by_cases hxt : x = t
        · subst hxt
          have hnone : alookup acc.2 x = none :=
            Option.not_isSome_iff_eq_none.mp hs
          simp [alookup_ainsert_self, hnone]
        · rw [alookup_ainsert_ne _ _ _ _ hxt]
          simp [hxt]

/-- Claim C3 (amended): `create_signature`'s selection tracks, in
'strong' mode, exactly the strong-buy list; in 'early' mode exactly the
early-buy list; in 'dividend' mode exactly the dividend list; and in
'all' mode the strong-buy list followed by the early-buy tickers not
already categorized — de-duplicated with strong-buy priority — while the
plain `buys` list is never tracked in any mode.  Categories record
strong-buy priority over early-buy.  (Early lists are assumed free of
internal duplicates, as the spec requires of the caller.) -/
theorem C3_mode_selection (parsed : List (String × List String)) :
    (selectTickers ("strong") parsed).1 =
      (alookup parsed ("strong_buys")).getD [] ∧
    (((alookup parsed ("early_buys")).getD []).Nodup →
      (selectTickers ("early") parsed).1 =
        (alookup parsed ("early_buys")).getD []) ∧
    (selectTickers ("dividend") parsed).1 =
      (alookup parsed ("dividends")).getD [] ∧
    (((alookup parsed ("early_buys")).getD []).Nodup →
      (selectTickers ("all") parsed).1 =
        (alookup parsed ("strong_buys")).getD [] ++
          ((alookup parsed ("early_buys")).getD []).filter
            (fun t =>
              decide (t ∉ (alookup parsed ("strong_buys")).getD []))) ∧
    (∀ t, alookup (selectTickers ("all") parsed).2 t =
      if t ∈ (alookup parsed ("strong_buys")).getD [] then
        some ("strong_buy")
      else if t ∈ (alookup parsed ("early_buys")).getD [] then
        some ("early_buy")
      else none) := by
  have hstrong : selectTickers ("strong") parsed =
      ((alookup parsed ("strong_buys")).getD []).foldl
        (fun acc t => (acc.1 ++ [t], ainsert acc.2 t ("strong_buy")))
        ([], []) := rfl
  have hearly : selectTickers ("early") parsed =
      ((alookup parsed ("early_buys")).getD []).foldl
        (fun acc t => if (alookup acc.2 t).isSome then acc
          else (acc.1 ++ [t], ainsert acc.2 t ("early_buy")))
        ([], []) := rfl
  have hdiv : selectTickers ("dividend") parsed =
      ((alookup parsed ("dividends")).getD []).foldl
        (fun acc t => (acc.1 ++ [t], ainsert acc.2 t ("dividend")))
        ([], []) := rfl
  have hall : selectTickers ("all") parsed =
      ((alookup parsed ("early_buys")).getD []).foldl
        (fun acc t => if (alookup acc.2 t).isSome then acc
          else (acc.1 ++ [t], ainsert acc.2 t ("early_buy")))
        (((alookup parsed ("strong_buys")).getD []).foldl
          (fun acc t => (acc.1 ++ [t], ainsert acc.2 t ("strong_buy")))
          ([], [])) := rfl
  refine ⟨?_, fun hnd => ?_, ?_, fun hnd => ?_, fun t => ?_⟩
  · rw [hstrong, assign_fold_fst]
    simp
  · rw [hearly, dedup_fold_fst _ _ hnd]
    simp [alookup_nil]
  · rw [hdiv, assign_fold_fst]
    simp
  · rw [hall, dedup_fold_fst _ _ hnd, assign_fold_fst]
    simp only [List.nil_append]
    congr 1
    apply List.filter_congr
    intro u _
    rw [assign_fold_lookup]
    by_cases hu : u ∈ (alookup parsed ("strong_buys")).getD []
    · simp [hu]
    · simp [hu, alookup_nil]
  · rw [hall, dedup_fold_lookup, assign_fold_lookup]
    by_cases ht : t ∈ (alookup parsed ("strong_buys")).getD []
    · simp [ht]
    · by_cases hte : t ∈ (alookup parsed ("early_buys")).getD []
      · simp [ht, hte, alookup_nil]
      · simp [ht, hte, alookup_nil]

/-- Witness for C3_mode_selection at the parsed fixture: in 'all' mode
the tracked tickers are the strong buys AAPL, MSFT followed by the
early buy TSLA (AAPL appears in both lists and keeps its strong-buy
category); the plain buy XYZ is not tracked. -/
theorem C3_mode_selection_witness :
    (selectTickers ("all") parsedExample).1 =
      [("AAPL"), ("MSFT"), ("TSLA")] ∧
    alookup (selectTickers ("all") parsedExample).2 ("AAPL") =
      some ("strong_buy") := by
  have h := C3_mode_selection parsedExample
  constructor
  · rw [h.2.2.2.1 (by decide)]
    decide
  · rw [h.2.2.2.2 ("AAPL")]
    decide

/-! ### C8 — fingerprint index / primary store synchronization -/

/-- The index/store synchronization invariant of the claim: both dicts
have unique keys, every fingerprint entry points to an existing
signature that carries exactly that fingerprint, and every stored
signature is keyed by its own identity and has its fingerprint in the
index (pointing back to it) — hence each fingerprint appears in the
index exactly once. -/
def StoreInv (m : SignatureManager) : Prop :=
  (m.signatures.map (fun e => e.1)).Nodup ∧
  (m.hash_index.map (fun e => e.1)).Nodup ∧
  (∀ hi ∈ m.hash_index,
    (alookup m.signatures hi.2).map Signature.file_hash = some hi.1) ∧
  (∀ e ∈ m.signatures, e.2.signature_id = e.1 ∧
    alookup m.hash_index e.2.file_hash = some e.1)

/-- The timestamp-plus-hash-suffix identity generated by a create call is
not already a key of the store.  The spec treats identity collisions as
astronomically unlikely rather than formally prevented (§4.2 step 5), so
reachability assumes exactly this freshness for each create. -/
def freshCreateId (m : SignatureManager) (env : CreateEnv)
    (content mode : String) : Prop :=
  alookup m.signatures
    (env.now_ts ++ "_" ++
      sliceStr (compute_file_hash env.H content mode) 7 15) = none

/-- States of the store reachable by the ledger's own operations: start
empty, create (with a fresh generated identity), close a position
through the store, delete a signature, and reload from the signature
records that a save would persist (the index is rebuilt, never read). -/
inductive Reachable : SignatureManager → Prop where
  | init : Reachable {}
  | create (m : SignatureManager) (env : CreateEnv)
      (content source mode : String)
      (parsed : List (String × List String)) :
      Reachable m → freshCreateId m env content mode →
      Reachable (m.create_signature env content source mode parsed).1
  | close (m : SignatureManager) (sig_id ticker : String) (price : ℚ)
      (reason today : String) : Reachable m →
      Reachable (closeInStore m sig_id ticker price reason today)
  | delete (m : SignatureManager) (sig_id : String) : Reachable m →
      Reachable (m.delete_signature sig_id).1
  | reload (m : SignatureManager) : Reachable m →
      Reachable (loadFromSignatures (m.signatures.map (fun e => e.2)))

/-- A successful `get_by_id` always returns a signature stored under some
key. -/
theorem get_by_id_some (m : SignatureManager) (q : String)
    (sig : Signature) (h : (m.get_by_id q).1 = some sig) :
    ∃ k, alookup m.signatures k = some sig := by
  unfold SignatureManager.get_by_id at h
  cases hq : alookup m.signatures q with
  | some s =>
      rw [hq] at h
      exact ⟨q, by rw [hq]; simpa using h⟩
  | none =>
      rw [hq] at h
      simp only [] at h
      cases hms : (m.signatures.map (fun e => e.1)).filter
          (fun s => strStartsWith s q) with
      | nil =>
          rw [hms] at h
          simp at h
      | cons x t =>
          cases t with
          | nil =>
              rw [hms] at h
              exact ⟨x, by simpa using h⟩
          | cons y t' =>
              rw [hms] at h
              simp at h

/-- Closing a position never changes a signature's identity or
fingerprint. -/
theorem close_position_id_hash (s : Signature) (ticker : String)
    (price : ℚ) (reason today : String) :
    (s.close_position ticker price reason today).1.signature_id =
      s.signature_id ∧
    (s.close_position ticker price reason today).1.file_hash =
      s.file_hash := by
  unfold Signature.close_position
  cases alookup s.positions ticker with
  | none => exact ⟨rfl, rfl⟩
  | some p =>
      by_cases hp : p.status == "open"
      · simp [hp]
      · simp [hp]

/-- Inserting a fresh signature (new identity, new fingerprint) into
both the store and the index preserves the synchronization invariant. -/
theorem storeInv_insert (m : SignatureManager) (sid : String)
    (sig : Signature) (hinv : StoreInv m)
    (hid : sig.signature_id = sid)
    (hfh : alookup m.hash_index sig.file_hash = none)
    (hsid : alookup m.signatures sid = none) :
    StoreInv { signatures := ainsert m.signatures sid sig
               hash_index := ainsert m.hash_index sig.file_hash sid } := by
  obtain ⟨hnd1, hnd2, hc3, hc4⟩ := hinv
  refine ⟨nodup_keys_ainsert _ _ _ hnd1, nodup_keys_ainsert _ _ _ hnd2,
    ?_, ?_⟩
  · intro hi hmem
    rcases (mem_ainsert _ _ _ _).mp hmem with rfl | ⟨hold, hne⟩
    · simp only []
      rw [alookup_ainsert_self]
      simp
    · have h3 := hc3 hi hold
      have h2ne : hi.2 ≠ sid := by
        intro he
        rw [he, hsid] at h3
        simp at h3
      simp only []
      rw [alookup_ainsert_ne _ _ _ _ h2ne]
      exact h3
  · intro e hmem
    rcases (mem_ainsert _ _ _ _).mp hmem with rfl | ⟨hold, hne⟩
    · refine ⟨hid, ?_⟩
      simp only []
      rw [alookup_ainsert_self]
    · have h4 := hc4 e hold
      refine ⟨h4.1, ?_⟩
      have hfne : e.2.file_hash ≠ sig.file_hash := by
        intro he
        rw [← he, h4.2] at hfh
        simp at hfh
      simp only []
      rw [alookup_ainsert_ne _ _ _ _ hfne]
      exact h4.2

/-- `create_signature` preserves the synchronization invariant: the
dedup branch leaves the store untouched, and the create branch inserts
signature and index entry together. -/
theorem storeInv_create (m : SignatureManager) (env : CreateEnv)
    (content source mode : String)
    (parsed : List (String × List String)) (hinv : StoreInv m)
    (hfresh : freshCreateId m env content mode) :
    StoreInv (m.create_signature env content source mode parsed).1 := by
  cases hbh : m.get_by_hash (compute_file_hash env.H content mode) with
  | some sig =>
      have hsame : (m.create_signature env content source mode
          parsed).1 = m := by
        simp only [SignatureManager.create_signature, hbh]
      rw [hsame]
      exact hinv
  | none =>
      have hidx : alookup m.hash_index
          (compute_file_hash env.H content mode) = none := by
        cases hl : alookup m.hash_index
            (compute_file_hash env.H content mode) with
        | none => rfl
        | some sid =>
            have h3 := hinv.2.2.1 _ (alookup_mem hl)
            unfold SignatureManager.get_by_hash at hbh
            rw [hl] at hbh
            simp only [] at hbh
            rw [hbh] at h3
            simp at h3
      have hres : (m.create_signature env content source mode
          parsed).1 =
          { signatures := ainsert m.signatures
              (env.now_ts ++ "_" ++ sliceStr
                (compute_file_hash env.H content mode) 7 15)
              (m.create_signature env content source mode parsed).2.1
            hash_index := ainsert m.hash_index
              (compute_file_hash env.H content mode)
              (env.now_ts ++ "_" ++ sliceStr
                (compute_file_hash env.H content mode) 7 15) } := by
        simp only [SignatureManager.create_signature, hbh]
      have hsigid : (m.create_signature env content source mode
          parsed).2.1.signature_id =
          env.now_ts ++ "_" ++ sliceStr
            (compute_file_hash env.H content mode) 7 15 := by
        simp only [SignatureManager.create_signature, hbh]
      have hsigfh : (m.create_signature env content source mode
          parsed).2.1.file_hash =
          compute_file_hash env.H content mode := by
        simp only [SignatureManager.create_signature, hbh]
      rw [hres]
      have happ := storeInv_insert m
        (env.now_ts ++ "_" ++ sliceStr
          (compute_file_hash env.H content mode) 7 15)
        (m.create_signature env content source mode parsed).2.1 hinv
        hsigid (by rw [hsigfh]; exact hidx) hfresh
      rw [hsigfh] at happ
      exact happ

/-- Replacing a stored signature by one with the same identity and
fingerprint (exactly what storing back a closed signature does)
preserves the synchronization invariant. -/
theorem storeInv_update (m : SignatureManager) (k : String)
    (sig sig' : Signature) (hinv : StoreInv m)
    (hk : alookup m.signatures k = some sig)
    (hid : sig'.signature_id = sig.signature_id)
    (hfh : sig'.file_hash = sig.file_hash) :
    StoreInv (m.update_signature sig') := by
  obtain ⟨hnd1, hnd2, hc3, hc4⟩ := hinv
  have h4 := hc4 (k, sig) (alookup_mem hk)
  have hsid : sig'.signature_id = k := by
    rw [hid]
    exact h4.1
  unfold SignatureManager.update_signature
  rw [hsid]
  refine ⟨nodup_keys_ainsert _ _ _ hnd1, hnd2, ?_, ?_⟩
  · intro hi hmem2
    have h3 := hc3 hi hmem2
    by_cases h2 : hi.2 = k
    · simp only []
      rw [h2, alookup_ainsert_self]
      rw [h2, hk] at h3
      simp only [Option.map_some'] at h3
      simp [hfh, h3]
    · simp only []
      rw [alookup_ainsert_ne _ _ _ _ h2]
      exact h3
  · intro e hmem2
    rcases (mem_ainsert _ _ _ _).mp hmem2 with rfl | ⟨hold, hne⟩
    · exact ⟨hsid, by rw [hfh]; exact h4.2⟩
    · exact hc4 e hold

/-- The store-level close flow preserves the synchronization
invariant. -/
theorem storeInv_close (m : SignatureManager) (sig_id ticker : String)
    (price : ℚ) (reason today : String) (hinv : StoreInv m) :
    StoreInv (closeInStore m sig_id ticker price reason today) := by
  unfold closeInStore
  cases hg : (m.get_by_id sig_id).1 with
  | none => exact hinv
  | some sig =>
      obtain ⟨k, hk⟩ := get_by_id_some m sig_id sig hg
      by_cases hb : (sig.close_position ticker price reason today).2 =
          true
      · simp only [hb, if_true]
        exact storeInv_update m k sig
          (sig.close_position ticker price reason today).1 hinv hk
          (close_position_id_hash sig ticker price reason today).1
          (close_position_id_hash sig ticker price reason today).2
      · simp only [Bool.not_eq_true] at hb
        simp only [hb, Bool.false_eq_true, if_false]
        exact hinv

/-- `delete_signature` preserves the synchronization invariant: it
removes the signature and its index entry together. -/
theorem storeInv_delete (m : SignatureManager) (sig_id : String)
    (hinv : StoreInv m) :
    StoreInv (m.delete_signature sig_id).1 := by
  unfold SignatureManager.delete_signature
  cases hg : (m.get_by_id sig_id).1 with
  | none => exact hinv
  | some sig =>
      obtain ⟨k, hk⟩ := get_by_id_some m sig_id sig hg
      obtain ⟨hnd1, hnd2, hc3, hc4⟩ := hinv
      have h4 := hc4 (k, sig) (alookup_mem hk)
      have hsidk : sig.signature_id = k := h4.1
      have hidxk : alookup m.hash_index sig.file_hash = some k := h4.2
      simp only [hsidk]
      refine ⟨nodup_keys_aerase _ _ hnd1, nodup_keys_aerase _ _ hnd2,
        ?_, ?_⟩
      · intro hi hmem
        obtain ⟨hold, hne⟩ := (mem_aerase _ _ _).mp hmem
        have h3 := hc3 hi hold
        have h2 : hi.2 ≠ k := by
          intro he
          rw [he, hk] at h3
          simp only [Option.map_some'] at h3
          exact hne ((Option.some_inj.mp h3).symm ▸ rfl)
        rw [alookup_aerase_ne _ _ _ h2]
        exact h3
      · intro e hmem
        obtain ⟨hold, hne⟩ := (mem_aerase _ _ _).mp hmem
        have h4e := hc4 e hold
        refine ⟨h4e.1, ?_⟩
        have hfne : e.2.file_hash ≠ sig.file_hash := by
          intro he
          have h4e2 := h4e.2
          rw [he, hidxk] at h4e2
          exact hne (Option.some_inj.mp h4e2.symm)
        rw [alookup_aerase_ne _ _ _ hfne]
        exact h4e.2

/-- Explicit form of `_load`'s rebuild fold when the incoming identities
and fingerprints are fresh and pairwise distinct. -/
theorem load_foldl (sigs : List Signature) (acc : SignatureManager)
    (h1 : ∀ s ∈ sigs, alookup acc.signatures s.signature_id = none)
    (h2 : ∀ s ∈ sigs, alookup acc.hash_index s.file_hash = none)
    (hnd1 : (sigs.map (fun s => s.signature_id)).Nodup)
    (hnd2 : (sigs.map (fun s => s.file_hash)).Nodup) :
    sigs.foldl (fun m sig =>
      { signatures := ainsert m.signatures sig.signature_id sig
        hash_index :=
          ainsert m.hash_index sig.file_hash sig.signature_id }) acc =
    { signatures := acc.signatures ++
        sigs.map (fun s => (s.signature_id, s))
      hash_index := acc.hash_index ++
        sigs.map (fun s => (s.file_hash, s.signature_id)) } := by
  induction sigs generalizing acc with
  | nil => simp
  | cons s rest ih =>
      have hs1 := h1 s (List.mem_cons_self s rest)
      have hs2 := h2 s (List.mem_cons_self s rest)
      have hnds : s.signature_id ∉ rest.map (fun u => u.signature_id) :=
        (List.nodup_cons.mp (by simpa using hnd1)).1
      have hndh : s.file_hash ∉ rest.map (fun u => u.file_hash) :=
        (List.nodup_cons.mp (by simpa using hnd2)).1
      have hid_ne : ∀ u ∈ rest, u.signature_id ≠ s.signature_id := by
        intro u hu he
        exact hnds (he ▸ List.mem_map.mpr ⟨u, hu, rfl⟩)
      have hfh_ne : ∀ u ∈ rest, u.file_hash ≠ s.file_hash := by
        intro u hu he
        exact hndh (he ▸ List.mem_map.mpr ⟨u, hu, rfl⟩)
      rw [List.foldl_cons]
      have h1' : ∀ u ∈ rest,
          alookup (ainsert acc.signatures s.signature_id s)
            u.signature_id = none := by
        intro u hu
        rw [alookup_ainsert_ne _ _ _ _ (hid_ne u hu)]
        exact h1 u (List.mem_cons_of_mem s hu)
      have h2' : ∀ u ∈ rest,
          alookup (ainsert acc.hash_index s.file_hash s.signature_id)
            u.file_hash = none := by
        intro u hu
        rw [alookup_ainsert_ne _ _ _ _ (hfh_ne u hu)]
        exact h2 u (List.mem_cons_of_mem s hu)
      rw [ih { signatures := ainsert acc.signatures s.signature_id s
               hash_index :=
                 ainsert acc.hash_index s.file_hash s.signature_id }
        h1' h2'
        (by simpa using (List.nodup_cons.mp (by simpa using hnd1)).2)
        (by simpa using (List.nodup_cons.mp (by simpa using hnd2)).2)]
      simp only []
      rw [ainsert_of_not_mem _ _ _ hs1, ainsert_of_not_mem _ _ _ hs2]
      simp

/-- Reloading the store from the persisted signature records alone
(`_load` after a save) rebuilds the fingerprint index and preserves the
synchronization invariant. -/
theorem storeInv_reload (m : SignatureManager) (hinv : StoreInv m) :
    StoreInv (loadFromSignatures (m.signatures.map (fun e => e.2))) := by
  obtain ⟨hnd1, hnd2, hc3, hc4⟩ := hinv
  have hids : (m.signatures.map (fun e => e.2)).map
      (fun s => s.signature_id) = m.signatures.map (fun e => e.1) := by
    rw [List.map_map]
    exact List.map_congr_left (fun e he => (hc4 e he).1)
  have hndids : ((m.signatures.map (fun e => e.2)).map
      (fun s => s.signature_id)).Nodup := by
    rw [hids]
    exact hnd1
  have hsnodup : m.signatures.Nodup := hnd1.of_map
  have hinj : ∀ x ∈ m.signatures, ∀ y ∈ m.signatures,
      x.2.file_hash = y.2.file_hash → x = y := by
    intro x hx y hy hxy
    have h4x := hc4 x hx
    have h4y := hc4 y hy
    have hx2 := h4x.2
    rw [hxy, h4y.2] at hx2
    have hkey : y.1 = x.1 := Option.some_inj.mp hx2
    have hvx : alookup m.signatures x.1 = some x.2 :=
      alookup_of_mem_nodup (by rw [Prod.mk.eta]; exact hx) hnd1
    have hvy : alookup m.signatures y.1 = some y.2 :=
      alookup_of_mem_nodup (by rw [Prod.mk.eta]; exact hy) hnd1
    rw [hkey, hvx] at hvy
    have hval : x.2 = y.2 := Option.some_inj.mp hvy
    have hkey' : x.1 = y.1 := hkey.symm
    calc x = (x.1, x.2) := (Prod.mk.eta).symm
      _ = (y.1, y.2) := by rw [hkey', hval]
      _ = y := Prod.mk.eta
  have hndhash : ((m.signatures.map (fun e => e.2)).map
      (fun s => s.file_hash)).Nodup := by
    rw [List.map_map]
    exact List.Nodup.map_on hinj hsnodup
  unfold loadFromSignatures
  rw [load_foldl (m.signatures.map (fun e => e.2)) {}
    (fun s _ => alookup_nil _) (fun s _ => alookup_nil _)
    hndids hndhash]
  have hkeys1 : ((m.signatures.map (fun e => e.2)).map
        (fun s => (s.signature_id, s))).map (fun e => e.1) =
      (m.signatures.map (fun e => e.2)).map
        (fun s => s.signature_id) := by
    rw [List.map_map]
    rfl
  have hkeys2 : ((m.signatures.map (fun e => e.2)).map
        (fun s => (s.file_hash, s.signature_id))).map (fun e => e.1) =
      (m.signatures.map (fun e => e.2)).map (fun s => s.file_hash) := by
    rw [List.map_map]
    rfl
  refine ⟨?_, ?_, ?_, ?_⟩
  · simp only [List.nil_append]
    rw [hkeys1]
    exact hndids
  · simp only [List.nil_append]
    rw [hkeys2]
    exact hndhash
  · intro hi hmem
    simp only [List.nil_append] at hmem ⊢
    obtain ⟨s, hs, rfl⟩ := List.mem_map.mp hmem
    have hmm : (s.signature_id, s) ∈ (m.signatures.map (fun e => e.2)).map
        (fun u => (u.signature_id, u)) :=
      List.mem_map.mpr ⟨s, hs, rfl⟩
    have hlook : alookup ((m.signatures.map (fun e => e.2)).map
        (fun u => (u.signature_id, u))) s.signature_id = some s :=
      alookup_of_mem_nodup hmm (by rw [hkeys1]; exact hndids)
    simp only []
    rw [hlook]
    rfl
  · intro e hmem
    simp only [List.nil_append] at hmem ⊢
    obtain ⟨s, hs, rfl⟩ := List.mem_map.mp hmem
    refine ⟨rfl, ?_⟩
    have hmm2 : (s.file_hash, s.signature_id) ∈
        (m.signatures.map (fun e => e.2)).map
          (fun u => (u.file_hash, u.signature_id)) :=
      List.mem_map.mpr ⟨s, hs, rfl⟩
    show alookup ((m.signatures.map (fun e => e.2)).map
        (fun u => (u.file_hash, u.signature_id))) s.file_hash =
      some s.signature_id
    exact alookup_of_mem_nodup hmm2 (by rw [hkeys2]; exact hndhash)

/-- Claim C8: in every reachable store state the fingerprint index and
the primary store are synchronized — every index entry points to an
existing signature carrying that fingerprint, every stored signature's
fingerprint appears in the index exactly once (pointing back to it), and
both key sets are duplicate-free.  Reachability covers the ledger's own
operations: starting empty, creating (the dedup branch included),
closing positions through the store, deleting, and reloading from the
persisted signature records — under which `_load` rebuilds the index
entirely from the loaded signatures, never reading it from disk. -/
theorem C8_index_store_sync (m : SignatureManager) (h : Reachable m) :
    StoreInv m := by
  induction h with
  | init =>
      refine ⟨by simp, by simp, ?_, ?_⟩
      · intro hi hmem
        simp at hmem
      · intro e hmem
        simp at hmem
  | create m env content source mode parsed hr hfresh ih =>
      exact storeInv_create m env content source mode parsed ih hfresh
  | close m sig_id ticker price reason today hr ih =>
      exact storeInv_close m sig_id ticker price reason today ih
  | delete m sig_id hr ih =>
      exact storeInv_delete m sig_id ih
  | reload m hr ih =>
      exact storeInv_reload m ih

/-- Witness for C8_index_store_sync: the invariant holds at the concrete
reachable state obtained by creating a signature in the empty store and
then reloading from its persisted records. -/
theorem C8_index_store_sync_witness :
    StoreInv (loadFromSignatures
      (((SignatureManager.create_signature {} envSimple ("report")
          ("scan.txt") ("strong") parsedExample).1).signatures.map
        (fun e => e.2))) :=
  C8_index_store_sync _
    (Reachable.reload _
      (Reachable.create {} envSimple ("report") ("scan.txt") ("strong")
        parsedExample Reachable.init
        (by unfold freshCreateId; rfl)))

end PSAR
